import Mathlib

/-!
Shallow embedding of the mac-launcher search-cache engine
(src/src/backend.rs, src/src/main.rs, src/bench/searching.rs).

Strings are modelled by Lean String; the Rust str::trim, str::starts_with,
str::split_once and byte-length operations are re-implemented on the
character list so that every definition is kernel-computable.  The external
crates (skim and fuse fuzzy matchers, dns_lookup, the filesystem) are
parameterized as oracles: the claims under verification are about the code
that surrounds them, not about the crates themselves.
-/

namespace Launcher

/-- One character of ASCII whitespace, as trimmed by str::trim on the
ASCII fragment relevant here. -/
def isWS (c : Char) : Bool :=
  c = ' ' || c = '\t' || c = '\n' || c = '\r'

/-- Model of Rust str::trim: remove leading and trailing whitespace. -/
def strTrim (s : String) : String :=
  String.mk (((s.data.dropWhile isWS).reverse.dropWhile isWS).reverse)

/-- Model of Rust str::starts_with. -/
def strStartsWith (s p : String) : Bool :=
  p.data.isPrefixOf s.data

/-- Model of the Rust byte slice query[1..] (and of strip_prefix for the
one-byte pattern given first) : drop the first character. -/
def strDrop1 (s : String) : String :=
  String.mk (s.data.drop 1)

/-- Model of Rust str::len: the UTF-8 byte length. -/
def byteLen (s : String) : Nat :=
  s.data.foldl (fun n c => n + c.utf8Size) 0

/-- Helper for splitOnceSpace: acc holds the reversed characters seen so
far before the first space. -/
def splitOnceAux (acc : List Char) : List Char → Option (String × String)
  | [] => none
  | c :: rest =>
    if c = ' ' then some (String.mk acc.reverse, String.mk rest)
    else splitOnceAux (c :: acc) rest

/-- Model of Rust str::split_once with a space delimiter: split at the
first space, the delimiter belonging to neither part. -/
def splitOnceSpace (s : String) : Option (String × String) :=
  splitOnceAux [] s.data

/-- Model of Rust Path::join restricted to a relative child name:
insert a separator unless the base already ends with one. -/
def joinPath (location name : String) : String :=
  if location.data.getLast? = some '/' then location ++ name
  else location ++ "/" ++ name

/-- Remove trailing path separators (Rust Path ignores them). -/
def rstripSlash (s : String) : String :=
  String.mk ((s.data.reverse.dropWhile (fun c => c = '/')).reverse)

/-- Split a path (already free of trailing separators) at its last
separator; none when it has no separator at all. -/
def pathSplit (p : String) : Option (String × String) :=
  let r := p.data.reverse
  let comp := r.takeWhile (fun c => c ≠ '/')
  if comp.length = r.length then none
  else some (String.mk (r.drop (comp.length + 1)).reverse, String.mk comp.reverse)

/-- Model of Rust Path::parent on Unix paths built from nonempty
components: the path minus its final component, none for the root and the
empty path. -/
def pathParent (s : String) : Option String :=
  let p := rstripSlash s
  if p.isEmpty then none
  else
    match pathSplit p with
    | none => some ""
    | some (pre, _) => if pre.isEmpty then some "/" else some (rstripSlash pre)

/-- Model of Rust Path::file_name on Unix paths built from nonempty
components: the final component, none for the root and the empty path. -/
def pathFileName (s : String) : Option String :=
  let p := rstripSlash s
  if p.isEmpty then none
  else
    match pathSplit p with
    | none => some p
    | some (_, comp) => some comp

/-- FileEntryType from backend.rs (derives PartialEq and Eq). -/
inductive FileEntryType
  | App
  | Bin
  | File
deriving DecidableEq

/-- FileEntry from backend.rs.  The Rust code derives PartialEq and Eq,
so equality compares all three fields; the manual Hash impl hashes only
full_path, which affects bucket placement but not which values a HashSet
can hold, so the HashSet of entries behaves as a set of FileEntry values
under this full structural equality. -/
structure FileEntry where
  file_type : FileEntryType
  full_path : String
  name : String
deriving DecidableEq

/-- LauncherResult from backend.rs. -/
inductive LauncherResult
  | Command (cmd : String) (param : String)
  | Url (url : String)
  | App (path : String)
  | Bin (path : String)
  | File (path : String)
deriving DecidableEq

/-- Model of HashSet insert on the set of FileEntry values, the set being
represented by its iteration sequence: inserting a value already present
leaves the set unchanged, anything else is appended. -/
def insertEntry (s : List FileEntry) (e : FileEntry) : List FileEntry :=
  if e ∈ s then s else s ++ [e]

/-- Model of HashMap lookup for the search-results map, the map being
represented as an association list with distinct keys. -/
def lookupResults (m : List (String × List LauncherResult)) (k : String) :
    Option (List LauncherResult) :=
  match m with
  | [] => none
  | (k', v) :: rest => if k' = k then some v else lookupResults rest k

/-- Model of HashMap insert for the search-results map: an existing
binding of the key is overwritten in place, a new key is appended. -/
def insertResults (m : List (String × List LauncherResult)) (k : String)
    (v : List LauncherResult) : List (String × List LauncherResult) :=
  match m with
  | [] => [(k, v)]
  | (k', v') :: rest =>
    if k' = k then (k', v) :: rest else (k', v') :: insertResults rest k v

/-- Cache from backend.rs: the entry store and the query memoization map. -/
structure Cache where
  file_entries : List FileEntry
  search_results : List (String × List LauncherResult)
deriving DecidableEq

/-- Cache::new from backend.rs. -/
def Cache.new : Cache :=
  { file_entries := [], search_results := [] }

/-- Cache::get_results from backend.rs. -/
def Cache.get_results (c : Cache) (query : String) :
    Option (List LauncherResult) :=
  lookupResults c.search_results query

/-- Cache::add_results from backend.rs. -/
def Cache.add_results (c : Cache) (query : String)
    (results : List LauncherResult) : Cache :=
  { c with search_results := insertResults c.search_results query results }

/-- Two caches hold the same content: the same entry membership and the
same memoized result list for every query key. -/
def Cache.equiv (a b : Cache) : Prop :=
  (∀ e, e ∈ a.file_entries ↔ e ∈ b.file_entries) ∧
  (∀ k, lookupResults a.search_results k = lookupResults b.search_results k)

/-- Config from backend.rs (the fields the core engine reads). -/
structure Config where
  app_locations : List String
  editor : String
  results_len : Nat
  fuzzy_engine : String
deriving DecidableEq

/-- CONFIG_PATH from backend.rs, with the HOME environment variable made
an explicit parameter. -/
def CONFIG_PATH (home : String) : String :=
  home ++ "/.config/launcher/launcher.toml"

/-- Cache::parent_entry from backend.rs: builds the FileEntry that
add_dir inserts for a scanned location, from the location's Path::parent
(unwrap_or the empty path), appending a separator to the path unless the
parent is the root, and deriving the display name from the parent's
file_name (the root and the empty path have none and display as a bare
separator). -/
def Cache.parent_entry (location : String) : FileEntry :=
  let parent := (pathParent location).getD ""
  let full_path := parent
  let full_path := if full_path ≠ "/" then full_path ++ "/" else full_path
  let name :=
    match pathFileName parent with
    | some n => n ++ "/"
    | none => "/"
  { file_type := FileEntryType.File, full_path := full_path, name := name }

/-- Cache::add_dir from backend.rs.  The filesystem is the readDir
oracle: for a readable directory it yields the sequence of child file
names, for an unreadable one none (the Ok pattern fails and the location
is skipped).  Each child is inserted with its raw file name and the full
path DirEntry::path reports (the location joined with the name); before
the children, the entry produced by parent_entry for the location itself
is inserted, marked as a File. -/
def addChild (t : FileEntryType) (location : String) (cache : Cache)
    (n : String) : Cache :=
  { cache with
    file_entries :=
      insertEntry cache.file_entries
        { file_type := t, full_path := joinPath location n, name := n } }

def Cache.add_dir (readDir : String → Option (List String)) (c : Cache)
    (locations : List String) (t : FileEntryType) : Cache :=
  locations.foldl
    (fun cache location =>
      match readDir location with
      | none => cache
      | some names =>
        names.foldl (addChild t location)
          { cache with
            file_entries :=
              insertEntry cache.file_entries (Cache.parent_entry location) })
    c

/-- One scored candidate inside Cache::search: the tuple
(score, coverage, entry) that the Rust code collects before sorting. -/
structure Ranked where
  score : Int
  coverage : Nat
  entry : FileEntry
deriving DecidableEq

/-- Order realizing sort_unstable_by_key with key
(Reverse score, Reverse coverage): score descending, then coverage
descending.  Rust's unstable sort guarantees only an order consistent
with the key (ties land arbitrarily), so any sort by this relation is a
faithful model; insertion sort is used because it is structurally
recursive. -/
def skimRel (a b : Ranked) : Prop :=
  b.score < a.score ∨ (a.score = b.score ∧ b.coverage ≤ a.coverage)

/-- Order realizing sort_unstable_by_key with key (score, coverage):
score ascending, then coverage ascending. -/
def fuseRel (a b : Ranked) : Prop :=
  a.score < b.score ∨ (a.score = b.score ∧ a.coverage ≤ b.coverage)

instance : DecidableRel skimRel := fun a b => by
  unfold skimRel
  infer_instance

instance : DecidableRel fuseRel := fun a b => by
  unfold fuseRel
  infer_instance

instance : IsTotal Ranked skimRel :=
  ⟨fun a b => by unfold skimRel; omega⟩

instance : IsTrans Ranked skimRel :=
  ⟨fun a b c hab hbc => by unfold skimRel at hab hbc ⊢; omega⟩

instance : IsTotal Ranked fuseRel :=
  ⟨fun a b => by unfold fuseRel; omega⟩

instance : IsTrans Ranked fuseRel :=
  ⟨fun a b c hab hbc => by unfold fuseRel at hab hbc ⊢; omega⟩

/-- Oracles standing for the external collaborators of the query engine:
the skim matcher's fuzzy_indices (name, query to score and matched index
list), the fuse matcher's search (query, name to the score already scaled
by 512 and cast, and the summed length of the matched ranges), the
filesystem existence check, and the host lookup success. -/
structure SearchOracles where
  skimIndices : String → String → Option (Int × List Nat)
  fuseSearch : String → String → Option (Int × Nat)
  pathExists : String → Bool
  lookupHostOk : String → Bool

/-- The scored candidate list of the skim branch of Cache::search:
entries the matcher rejects are dropped, the rest carry the matcher's
score and the coverage (matched index count times 1024, divided by the
name's byte length). -/
def skimScore1 (skimIndices : String → String → Option (Int × List Nat))
    (query : String) (x : FileEntry) : Option Ranked :=
  (skimIndices x.name query).map
    (fun p =>
      { score := p.1, coverage := p.2.length * 1024 / byteLen x.name,
        entry := x })

def skimScored (skimIndices : String → String → Option (Int × List Nat))
    (entries : List FileEntry) (query : String) : List Ranked :=
  entries.filterMap (skimScore1 skimIndices query)

/-- The sorted candidate list of the skim branch. -/
def skimRanked (skimIndices : String → String → Option (Int × List Nat))
    (entries : List FileEntry) (query : String) : List Ranked :=
  List.insertionSort skimRel (skimScored skimIndices entries query)

/-- The scored candidate list of the fuse branch of Cache::search: only
entries whose name is at least as long (in bytes) as the query are
offered to the matcher; accepted ones carry the scaled score and the
coverage (512 times the unmatched fraction of the name). -/
def fuseScore1 (fuseSearch : String → String → Option (Int × Nat))
    (query : String) (x : FileEntry) : Option Ranked :=
  if byteLen query ≤ byteLen x.name then
    (fuseSearch query x.name).map
      (fun p =>
        { score := p.1,
          coverage := (byteLen x.name * 512 - p.2 * 512) / byteLen x.name,
          entry := x })
  else none

def fuseScored (fuseSearch : String → String → Option (Int × Nat))
    (entries : List FileEntry) (query : String) : List Ranked :=
  entries.filterMap (fuseScore1 fuseSearch query)

/-- The sorted candidate list of the fuse branch. -/
def fuseRanked (fuseSearch : String → String → Option (Int × Nat))
    (entries : List FileEntry) (query : String) : List Ranked :=
  List.insertionSort fuseRel (fuseScored fuseSearch entries query)

/-- The per-entry mapping at the end of Cache::search: App entries to App
results, Bin entries to Bin results, File entries to File results. -/
def entryToResult (e : FileEntry) : LauncherResult :=
  match e.file_type with
  | FileEntryType.App => LauncherResult.App e.full_path
  | FileEntryType.Bin => LauncherResult.Bin e.full_path
  | FileEntryType.File => LauncherResult.File e.full_path

/-- Cache::search from backend.rs.  none models the panic of the
unrecognized-kind branch.  The sorted entry sequence is truncated to
config.results_len and mapped to results in order. -/
def Cache.search (o : SearchOracles) (c : Cache) (query : String)
    (kind : String) (config : Config) : Option (List LauncherResult) :=
  let ranked : Option (List FileEntry) :=
    if kind = "skim" then
      some ((skimRanked o.skimIndices c.file_entries query).map Ranked.entry)
    else if kind = "fuse" then
      some ((fuseRanked o.fuseSearch c.file_entries query).map Ranked.entry)
    else none
  match ranked with
  | none => none
  | some ranked =>
    let endIndex :=
      if ranked.length < config.results_len then ranked.length
      else config.results_len
    some ((ranked.take endIndex).map entryToResult)

/-- LauncherResult::prerun_command from backend.rs (the cache argument is
unused by the Rust code and omitted; the io::Result is always Ok). -/
def prerun_command (home : String) (r : LauncherResult) :
    List LauncherResult :=
  match r with
  | LauncherResult.Command cmd _ =>
    if cmd = "find" then []
    else if cmd = "config" then [LauncherResult.File (CONFIG_PATH home)]
    else [r]
  | _ => [r]

/-- Query::fix_url from backend.rs. -/
def fix_url (url : String) : String :=
  if !strStartsWith url "http://" && !strStartsWith url "https://" then
    "http://" ++ url
  else url

/-- The result list of the meta-command branch of Query::parse: strip
the colon, trim the remainder, split it at the first space when one is
present (trimming both parts, the argument being empty otherwise), and
run prerun_command on the Command result so built. -/
def metaResults (home : String) (query : String) : List LauncherResult :=
  let stripped := strDrop1 query
  match splitOnceSpace (strTrim stripped) with
  | some (cmd, param) =>
    prerun_command home
      (LauncherResult.Command (strTrim cmd) (strTrim param))
  | none =>
    prerun_command home
      (LauncherResult.Command (strTrim (strDrop1 query)) "")

/-- The (command, argument) pair the meta-command branch computes: trim
the colon-stripped remainder, split it at the first space when one is
present and trim both parts; otherwise the whole trimmed remainder with
an empty argument. -/
def metaCmdArg (stripped : String) : String × String :=
  match splitOnceSpace (strTrim stripped) with
  | some (cmd, param) => (strTrim cmd, strTrim param)
  | none => (strTrim stripped, "")

/-- The append chain at the tail of Query::parse, after the fuzzy block
has been computed: the direct path hit, the home-relative path hit, the
host-lookup Url hit, and the unconditional fallback search command, in
this order. -/
def searchTail (o : SearchOracles) (home : String) (query : String)
    (fuzzy : List LauncherResult) : List LauncherResult :=
  let results := fuzzy
  let results :=
    if o.pathExists query then results ++ [LauncherResult.File query]
    else results
  let relative := home ++ "/" ++ query
  let results :=
    if o.pathExists relative then results ++ [LauncherResult.File relative]
    else results
  let results :=
    if o.lookupHostOk query then
      results ++ [LauncherResult.Url (fix_url query)]
    else results
  results ++ [LauncherResult.Command "search" query]

/-- Query::parse from backend.rs.  none models a panic escaping from
Cache::search; every non-panicking Rust path returns Ok, so the
io::Result layer is dropped.  The host-lookup thread is spawned before
and joined after the fuzzy/path steps; its only observable effect is the
boolean used for the Url push, supplied by the lookupHostOk oracle.  The
delta starts as Cache::new and is only ever touched by the final
add_results call of the taken branch. -/
def Query.parse (o : SearchOracles) (home : String) (q : String)
    (config : Config) (cache : Cache) : Option Cache :=
  let query := strTrim q
  if query.isEmpty then some Cache.new
  else if (cache.get_results query).isSome then some Cache.new
  else if strStartsWith query ":" then
    some (Cache.add_results Cache.new query (metaResults home query))
  else
    match
      (if byteLen query < 15 then
        Cache.search o cache query config.fuzzy_engine config
      else some []) with
    | none => none
    | some fuzzy =>
      some (Cache.add_results Cache.new query (searchTail o home query fuzzy))

/-- The shared-cache update the backend task in main.rs performs after a
resolution pass: the delta returned by Query::parse is assigned over the
shared cache. -/
def backendUpdate (_shared delta : Cache) : Cache :=
  delta

/-- The shared-cache update the benchmark harness in bench/searching.rs
performs after a resolution pass: every file entry of the delta is
inserted into the shared entry set, and the delta's result list for the
query (when present) is inserted into the shared result map, overwriting
any existing binding of that key. -/
def benchMerge (shared delta : Cache) (query : String) : Cache :=
  let entries := delta.file_entries.foldl insertEntry shared.file_entries
  match lookupResults delta.search_results query with
  | some r =>
    { file_entries := entries,
      search_results := insertResults shared.search_results query r }
  | none =>
    { file_entries := entries, search_results := shared.search_results }

/-- Modelled from the spec (section 4.4), for comparison with the source:
the merge the claim describes unions the delta's entry set into the
shared set and, for each query key of the delta's result map, inserts it
into the shared result map only if that key is not already memoized
there, never overwriting an existing binding. -/
def claimedMerge (shared delta : Cache) : Cache :=
  { file_entries := delta.file_entries.foldl insertEntry shared.file_entries,
    search_results :=
      delta.search_results.foldl
        (fun m kv =>
          if (lookupResults m kv.1).isSome then m else m ++ [kv])
        shared.search_results }

/-! Concrete fixtures used by witnesses and counterexamples. -/

/-- Oracle with no fuzzy matches, no existing paths, no resolvable hosts. -/
def o0 : SearchOracles :=
  { skimIndices := fun _ _ => none
    fuseSearch := fun _ _ => none
    pathExists := fun _ => false
    lookupHostOk := fun _ => false }

/-- Oracle that matches the single name Safari.app and finds every path. -/
def o1 : SearchOracles :=
  { skimIndices := fun n _ => if n = "Safari.app" then some (50, [0, 1, 2]) else none
    fuseSearch := fun _ n => if n = "Safari.app" then some (10, 3) else none
    pathExists := fun _ => true
    lookupHostOk := fun _ => true }

/-- The default configuration of backend.rs, restricted to the modelled
fields. -/
def cfg0 : Config :=
  { app_locations := ["/Applications"], editor := "hx", results_len := 20,
    fuzzy_engine := "skim" }

def rA : LauncherResult := LauncherResult.Url "http://a"

def rB : LauncherResult := LauncherResult.Url "http://b"

def eX : FileEntry :=
  { file_type := FileEntryType.App, full_path := "/x", name := "x" }

def dA : Cache := { file_entries := [], search_results := [("q", [rA])] }

def dB : Cache := { file_entries := [], search_results := [("q", [rB])] }

def cX : Cache := { file_entries := [eX], search_results := [("k", [rA])] }

def e1X : FileEntry :=
  { file_type := FileEntryType.App, full_path := "/same/path", name := "a" }

def e2X : FileEntry :=
  { file_type := FileEntryType.File, full_path := "/same/path", name := "b" }

/-- Directory-listing oracle with one visible and one hidden child. -/
def listApps : String → Option (List String) :=
  fun _ => some [".hidden.app", "Safari.app"]

def safariEntry : FileEntry :=
  { file_type := FileEntryType.App, full_path := "/Applications/Safari.app",
    name := "Safari.app" }

/-- A cache holding one memoized query for the C3 witness. -/
def cacheMemo : Cache :=
  { file_entries := [], search_results := [("a", [rA])] }

/-- A cache whose entry store holds only the Safari app entry. -/
def cacheSafari : Cache :=
  { file_entries := [safariEntry], search_results := [] }

/-- The delta that parse produces for the query hello against an empty
cache with the all-negative oracle. -/
def deltaHello : Cache :=
  { file_entries := [],
    search_results := [("hello", [LauncherResult.Command "search" "hello"])] }

/-! Helper lemmas about the set and map primitives. -/

theorem mem_insertEntry {s : List FileEntry} {e e' : FileEntry} :
    e' ∈ insertEntry s e ↔ e' ∈ s ∨ e' = e := by
  unfold insertEntry
  by_cases h : e ∈ s
  · rw [if_pos h]
    constructor
    · exact Or.inl
    · intro h'
      cases h' with
      | inl hh => exact hh
      | inr hh => rw [hh]; exact h
  · rw [if_neg h]
    simp

theorem insertEntry_of_mem {s : List FileEntry} {e : FileEntry}
    (h : e ∈ s) : insertEntry s e = s := by
  unfold insertEntry
  rw [if_pos h]

theorem mem_foldl_insertEntry {l : List FileEntry} {s : List FileEntry}
    {e : FileEntry} :
    e ∈ l.foldl insertEntry s ↔ e ∈ s ∨ e ∈ l := by
  induction l generalizing s with
  | nil => simp
  | cons a l ih =>
    simp only [List.foldl_cons, ih, mem_insertEntry, List.mem_cons]
    tauto

theorem foldl_insertEntry_of_subset {l s : List FileEntry}
    (h : ∀ e ∈ l, e ∈ s) : l.foldl insertEntry s = s := by
  induction l generalizing s with
  | nil => rfl
  | cons a l ih =>
    rw [List.foldl_cons, insertEntry_of_mem (h a (List.mem_cons_self a l)),
      ih]
    intro e he
    exact h e (List.mem_cons_of_mem a he)

theorem lookup_insertResults_self
    (m : List (String × List LauncherResult)) (k : String)
    (v : List LauncherResult) :
    lookupResults (insertResults m k v) k = some v := by
  induction m with
  | nil => simp [insertResults, lookupResults]
  | cons kv rest ih =>
    obtain ⟨k', v'⟩ := kv
    by_cases h : k' = k
    · simp [insertResults, lookupResults, h]
    · simp [insertResults, lookupResults, h, ih]

theorem lookup_insertResults_ne
    (m : List (String × List LauncherResult)) (k k' : String)
    (v : List LauncherResult) (h : k' ≠ k) :
    lookupResults (insertResults m k v) k' = lookupResults m k' := by
  induction m with
  | nil =>
    simp only [insertResults, lookupResults, if_neg (Ne.symm h)]
  | cons kv rest ih =>
    obtain ⟨k0, v0⟩ := kv
    by_cases h0 : k0 = k
    · subst h0
      have hne : ¬k0 = k' := fun hh => h hh.symm
      simp only [insertResults, if_pos rfl, lookupResults, if_neg hne]
    · simp only [insertResults, if_neg h0, lookupResults]
      by_cases h1 : k0 = k'
      · rw [if_pos h1, if_pos h1]
      · rw [if_neg h1, if_neg h1, ih]

theorem insertResults_idem
    (m : List (String × List LauncherResult)) (k : String)
    (v : List LauncherResult) :
    insertResults (insertResults m k v) k v = insertResults m k v := by
  induction m with
  | nil => simp [insertResults]
  | cons kv rest ih =>
    obtain ⟨k', v'⟩ := kv
    by_cases h : k' = k
    · simp [insertResults, h]
    · simp [insertResults, h, ih]

theorem insertResults_of_lookup
    (m : List (String × List LauncherResult)) (k : String)
    (v : List LauncherResult) (h : lookupResults m k = some v) :
    insertResults m k v = m := by
  induction m with
  | nil => simp [lookupResults] at h
  | cons kv rest ih =>
    obtain ⟨k', v'⟩ := kv
    by_cases hk : k' = k
    · simp only [lookupResults, if_pos hk] at h
      cases h
      simp [insertResults, hk]
    · simp only [lookupResults, if_neg hk] at h
      simp [insertResults, hk, ih h]

/-! Helper lemmas about the scoring functions and Cache.search. -/

theorem skimScore1_entry {si : String → String → Option (Int × List Nat)}
    {query : String} {x : FileEntry} {r : Ranked}
    (h : skimScore1 si query x = some r) : r.entry = x := by
  unfold skimScore1 at h
  rw [Option.map_eq_some'] at h
  obtain ⟨p, _, hp⟩ := h
  rw [← hp]

theorem skimScore1_isSome {si : String → String → Option (Int × List Nat)}
    {query : String} {x : FileEntry} :
    (skimScore1 si query x).isSome = (si x.name query).isSome := by
  unfold skimScore1
  cases si x.name query <;> rfl

theorem fuseScore1_entry {fs : String → String → Option (Int × Nat)}
    {query : String} {x : FileEntry} {r : Ranked}
    (h : fuseScore1 fs query x = some r) : r.entry = x := by
  unfold fuseScore1 at h
  by_cases hl : byteLen query ≤ byteLen x.name
  · rw [if_pos hl, Option.map_eq_some'] at h
    obtain ⟨p, _, hp⟩ := h
    rw [← hp]
  · rw [if_neg hl] at h
    cases h

theorem fuseScore1_isSome {fs : String → String → Option (Int × Nat)}
    {query : String} {x : FileEntry} :
    (fuseScore1 fs query x).isSome =
      (byteLen query ≤ byteLen x.name && (fs query x.name).isSome) := by
  unfold fuseScore1
  by_cases hl : byteLen query ≤ byteLen x.name
  · rw [if_pos hl]
    simp only [decide_eq_true hl, Bool.true_and]
    cases fs query x.name <;> rfl
  · rw [if_neg hl]
    simp [hl]

theorem take_endIndex {α : Type} (l : List α) (k : Nat) :
    l.take (if l.length < k then l.length else k) = l.take k := by
  by_cases h : l.length < k
  · rw [if_pos h, List.take_length, List.take_of_length_le (le_of_lt h)]
  · rw [if_neg h]

theorem search_skim_eq (o : SearchOracles) (c : Cache) (query : String)
    (config : Config) :
    Cache.search o c query "skim" config =
      some ((((skimRanked o.skimIndices c.file_entries query).take
        config.results_len).map Ranked.entry).map entryToResult) := by
  have h0 : Cache.search o c query "skim" config =
      some ((((skimRanked o.skimIndices c.file_entries query).map
        Ranked.entry).take
        (if ((skimRanked o.skimIndices c.file_entries query).map
              Ranked.entry).length < config.results_len then
          ((skimRanked o.skimIndices c.file_entries query).map
            Ranked.entry).length
        else config.results_len)).map entryToResult) := rfl
  rw [h0, take_endIndex]
  simp [List.map_take]

theorem search_fuse_eq (o : SearchOracles) (c : Cache) (query : String)
    (config : Config) :
    Cache.search o c query "fuse" config =
      some ((((fuseRanked o.fuseSearch c.file_entries query).take
        config.results_len).map Ranked.entry).map entryToResult) := by
  have h0 : Cache.search o c query "fuse" config =
      some ((((fuseRanked o.fuseSearch c.file_entries query).map
        Ranked.entry).take
        (if ((fuseRanked o.fuseSearch c.file_entries query).map
              Ranked.entry).length < config.results_len then
          ((fuseRanked o.fuseSearch c.file_entries query).map
            Ranked.entry).length
        else config.results_len)).map entryToResult) := rfl
  rw [h0, take_endIndex]
  simp [List.map_take]

theorem search_isSome_of_valid (o : SearchOracles) (c : Cache)
    (query kind : String) (config : Config)
    (h : kind = "skim" ∨ kind = "fuse") :
    (Cache.search o c query kind config).isSome = true := by
  cases h with
  | inl h => rw [h, search_skim_eq]; rfl
  | inr h => rw [h, search_fuse_eq]; rfl

/-! Helper lemmas about the two shared-cache update operations. -/

theorem Cache.eq_of_fields {a b : Cache}
    (h1 : a.file_entries = b.file_entries)
    (h2 : a.search_results = b.search_results) : a = b := by
  cases a; cases b; cases h1; cases h2; rfl

theorem benchMerge_entries (C d : Cache) (q : String) :
    (benchMerge C d q).file_entries =
      d.file_entries.foldl insertEntry C.file_entries := by
  unfold benchMerge
  cases lookupResults d.search_results q <;> rfl

theorem benchMerge_sr_none (C d : Cache) (q : String)
    (h : lookupResults d.search_results q = none) :
    (benchMerge C d q).search_results = C.search_results := by
  unfold benchMerge
  rw [h]

theorem benchMerge_sr_some (C d : Cache) (q : String)
    (r : List LauncherResult)
    (h : lookupResults d.search_results q = some r) :
    (benchMerge C d q).search_results =
      insertResults C.search_results q r := by
  unfold benchMerge
  rw [h]

/-- Claim C1: the cache-merge operation that the backend performs after a
resolution pass unions the delta's FileEntry set into the shared set and
inserts each delta result key only when not already memoized, and is
commutative and idempotent.  Refuted: the operation matching that
description (claimedMerge) fails the claimed commutativity equation on
two deltas that memoize the same key differently, and the operation the
backend actually performs (backendUpdate, plain replacement) is not
claimedMerge: it drops the shared cache's entries and memoized results. -/
theorem C1_counterexample :
    lookupResults
        ((claimedMerge (claimedMerge Cache.new dA) dB).search_results) "q" =
      some [rA] ∧
    lookupResults
        ((claimedMerge (claimedMerge Cache.new dB) dA).search_results) "q" =
      some [rB] ∧
    claimedMerge (claimedMerge Cache.new dA) dB ≠
      claimedMerge (claimedMerge Cache.new dB) dA ∧
    [rA] ≠ [rB] ∧
    backendUpdate cX dA ≠ claimedMerge cX dA ∧
    eX ∉ (backendUpdate cX dA).file_entries ∧
    eX ∈ (claimedMerge cX dA).file_entries ∧
    lookupResults ((backendUpdate cX dA).search_results) "k" = none ∧
    lookupResults ((claimedMerge cX dA).search_results) "k" = some [rA] := by
  decide

/-- Claim C1, amended: after a resolution pass the backend in main.rs
replaces the shared cache with the delta outright (dropping prior
content), while the benchmark harness merges by unioning the delta's
entries into the shared set and inserting the delta's result list for its
query key, overwriting any existing binding of that key.  The bench merge
is idempotent (re-applying the same delta changes nothing), and applying
two deltas with distinct query keys in either order yields the same cache
content; with equal keys carrying different lists the order matters (the
counterexample), so commutativity holds only key-disjointly. -/
theorem C1_amended_merge :
    (∀ C d : Cache, backendUpdate C d = d) ∧
    (∀ (C d : Cache) (q : String),
      benchMerge (benchMerge C d q) d q = benchMerge C d q) ∧
    (∀ (C d1 d2 : Cache) (q1 q2 : String), q1 ≠ q2 →
      Cache.equiv (benchMerge (benchMerge C d1 q1) d2 q2)
        (benchMerge (benchMerge C d2 q2) d1 q1)) ∧
    (∀ (C d1 d2 : Cache) (q1 q2 : String), q1 ≠ q2 →
      benchMerge (benchMerge (benchMerge C d1 q1) d2 q2) d1 q1 =
        benchMerge (benchMerge C d1 q1) d2 q2) := by
  refine ⟨fun C d => rfl, ?_, ?_, ?_⟩
  · intro C d q
    apply Cache.eq_of_fields
    · simp only [benchMerge_entries]
      apply foldl_insertEntry_of_subset
      intro e he
      exact mem_foldl_insertEntry.mpr (Or.inr he)
    · rcases hd : lookupResults d.search_results q with _ | r
      · rw [benchMerge_sr_none _ _ _ hd, benchMerge_sr_none _ _ _ hd]
      · have h1 : (benchMerge C d q).search_results =
            insertResults C.search_results q r :=
          benchMerge_sr_some C d q r hd
        have h2 : (benchMerge (benchMerge C d q) d q).search_results =
            insertResults (benchMerge C d q).search_results q r :=
          benchMerge_sr_some _ d q r hd
        rw [h2, h1, insertResults_idem]
  · intro C d1 d2 q1 q2 hq
    constructor
    · intro e
      simp only [benchMerge_entries, mem_foldl_insertEntry]
      tauto
    · intro k
      rcases hd1 : lookupResults d1.search_results q1 with _ | r1 <;>
        rcases hd2 : lookupResults d2.search_results q2 with _ | r2
      · rw [benchMerge_sr_none _ _ _ hd2, benchMerge_sr_none _ _ _ hd1,
          benchMerge_sr_none _ _ _ hd1, benchMerge_sr_none _ _ _ hd2]
      · rw [benchMerge_sr_some _ _ _ _ hd2, benchMerge_sr_none _ _ _ hd1,
          benchMerge_sr_none _ _ _ hd1, benchMerge_sr_some _ _ _ _ hd2]
      · rw [benchMerge_sr_none _ _ _ hd2, benchMerge_sr_some _ _ _ _ hd1,
          benchMerge_sr_some _ _ _ _ hd1, benchMerge_sr_none _ _ _ hd2]
      · rw [benchMerge_sr_some _ _ _ _ hd2, benchMerge_sr_some _ _ _ _ hd1,
          benchMerge_sr_some _ _ _ _ hd1, benchMerge_sr_some _ _ _ _ hd2]
        by_cases hk1 : k = q1
        · subst hk1
          rw [lookup_insertResults_ne _ _ _ _ hq,
            lookup_insertResults_self, lookup_insertResults_self]
        · by_cases hk2 : k = q2
          · subst hk2
            rw [lookup_insertResults_self,
              lookup_insertResults_ne _ _ _ _ (Ne.symm hq),
              lookup_insertResults_self]
          · rw [lookup_insertResults_ne _ _ _ _ hk2,
              lookup_insertResults_ne _ _ _ _ hk1,
              lookup_insertResults_ne _ _ _ _ hk1,
              lookup_insertResults_ne _ _ _ _ hk2]
  · intro C d1 d2 q1 q2 hq
    apply Cache.eq_of_fields
    · rw [benchMerge_entries]
      apply foldl_insertEntry_of_subset
      intro e he
      rw [benchMerge_entries, mem_foldl_insertEntry, benchMerge_entries,
        mem_foldl_insertEntry]
      exact Or.inl (Or.inr he)
    · rcases hd1 : lookupResults d1.search_results q1 with _ | r1
      · rw [benchMerge_sr_none _ _ _ hd1]
      · rw [benchMerge_sr_some _ _ _ _ hd1]
        apply insertResults_of_lookup
        rcases hd2 : lookupResults d2.search_results q2 with _ | r2
        · rw [benchMerge_sr_none _ _ _ hd2, benchMerge_sr_some _ _ _ _ hd1,
            lookup_insertResults_self]
        · rw [benchMerge_sr_some _ _ _ _ hd2, benchMerge_sr_some _ _ _ _ hd1,
            lookup_insertResults_ne _ _ _ _ hq, lookup_insertResults_self]

/-- Witness for C1_amended_merge: the hypotheses are satisfiable — the
keys q and p differ — and the amended properties hold at concrete
caches. -/
theorem C1_amended_merge_witness :
    ("q" ≠ "p") ∧
    benchMerge (benchMerge cX dA "q") dA "q" = benchMerge cX dA "q" ∧
    Cache.equiv (benchMerge (benchMerge cX dA "q") dB "p")
      (benchMerge (benchMerge cX dB "p") dA "q") :=
  ⟨by decide, C1_amended_merge.2.1 cX dA "q",
    C1_amended_merge.2.2.1 cX dA dB "q" "p" (by decide)⟩

/-- Claim C2: entries with the same full_path are the same entry
regardless of kind or name, the entry set never holds two elements
sharing a full_path, and inserting with an existing full_path replaces
the earlier entry (last write wins).  Refuted: equality derived in the
Rust code compares all fields, so two entries that share a path but
differ in kind and name are distinct values and the HashSet keeps both;
nothing is replaced. -/
theorem C2_counterexample :
    insertEntry (insertEntry [] e1X) e2X = [e1X, e2X] ∧
    e1X.full_path = e2X.full_path ∧
    e1X ≠ e2X ∧
    e1X ∈ insertEntry (insertEntry [] e1X) e2X ∧
    e2X ∈ insertEntry (insertEntry [] e1X) e2X := by
  decide

/-- Claim C2, amended: entry identity is full structural equality on
kind, path and name; entries sharing a full_path but differing elsewhere
coexist in the store; inserting a value already present leaves the store
unchanged (the earlier entry is kept — first write wins, nothing is
replaced), an insert never removes an existing element, and it adds at
most the inserted value itself. -/
theorem C2_entry_identity :
    (∀ (s : List FileEntry) (e : FileEntry), e ∈ insertEntry s e) ∧
    (∀ (s : List FileEntry) (e e' : FileEntry),
      e' ∈ s → e' ∈ insertEntry s e) ∧
    (∀ (s : List FileEntry) (e : FileEntry), e ∈ s → insertEntry s e = s) ∧
    (∀ (s : List FileEntry) (e e' : FileEntry),
      e' ∈ insertEntry s e → e' ∈ s ∨ e' = e) := by
  refine ⟨?_, ?_, ?_, ?_⟩
  · intro s e
    exact mem_insertEntry.mpr (Or.inr rfl)
  · intro s e e' h
    exact mem_insertEntry.mpr (Or.inl h)
  · intro s e h
    exact insertEntry_of_mem h
  · intro s e e' h
    exact mem_insertEntry.mp h

/-- Witness for C2_entry_identity: the membership hypotheses are
satisfiable at a concrete store. -/
theorem C2_entry_identity_witness :
    e1X ∈ [e1X, e2X] ∧ insertEntry [e1X, e2X] e1X = [e1X, e2X] :=
  ⟨by decide, C2_entry_identity.2.2.1 [e1X, e2X] e1X (by decide)⟩

/-- Claim C3: for every query q and cache C, if the trimmed q already has
a memoized result list in C, then parse returns an empty delta cache (no
entries, no result mappings): no recomputation happens for an
already-memoized query.  Confirmed. -/
theorem C3_memoized_empty_delta (o : SearchOracles) (home q : String)
    (config : Config) (cache : Cache)
    (h : (cache.get_results (strTrim q)).isSome = true) :
    Query.parse o home q config cache = some Cache.new := by
  unfold Query.parse
  by_cases he : (strTrim q).isEmpty
  · rw [if_pos he]
  · rw [if_neg he, if_pos h]

/-- Witness for C3_memoized_empty_delta: a concrete cache memoizing the
trimmed query, on which parse returns the empty delta. -/
theorem C3_memoized_empty_delta_witness :
    ((cacheMemo.get_results (strTrim "a")).isSome = true) ∧
    Query.parse o0 "/home/u" "a" cfg0 cacheMemo = some Cache.new :=
  ⟨by decide,
    C3_memoized_empty_delta o0 "/home/u" "a" cfg0 cacheMemo (by decide)⟩

/-- Claim C7: for every readable directory D given to scan, the entry set
contains a synthesized FileEntry representing D itself, kind File,
display name derived from D's last path segment, trailing separator
appended to name and path.  The code disagrees with its own comment (Add
the directory itself): parent_entry takes Path::parent of the location,
so scanning /Applications inserts the root entry (path "/", name "/"),
and scanning /Users/u/Documents inserts the entry for /Users/u/ named
"u/"; the entry representing the scanned directory itself is absent. -/
theorem C7_parent_entry_eval :
    Cache.parent_entry "/Applications" =
      { file_type := FileEntryType.File, full_path := "/", name := "/" } ∧
    Cache.parent_entry "/Users/u/Documents" =
      { file_type := FileEntryType.File, full_path := "/Users/u/",
        name := "u/" } ∧
    ({ file_type := FileEntryType.File, full_path := "/Applications/",
        name := "Applications/" } : FileEntry) ∉
      (Cache.add_dir listApps Cache.new ["/Applications"]
        FileEntryType.App).file_entries ∧
    ({ file_type := FileEntryType.File, full_path := "/",
        name := "/" } : FileEntry) ∈
      (Cache.add_dir listApps Cache.new ["/Applications"]
        FileEntryType.App).file_entries := by
  decide

/-- Claim C8: for App scans, hidden children (leading dot) are omitted
and display names are truncated at the first dot.  Refuted: add_dir
performs no such normalization for any kind — the hidden child is
indexed and Safari.app keeps its full name (no entry named Safari
exists). -/
theorem C8_counterexample :
    ({ file_type := FileEntryType.App,
        full_path := "/Applications/.hidden.app",
        name := ".hidden.app" } : FileEntry) ∈
      (Cache.add_dir listApps Cache.new ["/Applications"]
        FileEntryType.App).file_entries ∧
    safariEntry ∈
      (Cache.add_dir listApps Cache.new ["/Applications"]
        FileEntryType.App).file_entries ∧
    ({ file_type := FileEntryType.App,
        full_path := "/Applications/Safari.app",
        name := "Safari" } : FileEntry) ∉
      (Cache.add_dir listApps Cache.new ["/Applications"]
        FileEntryType.App).file_entries := by
  decide

theorem mem_foldl_addChild (t : FileEntryType) (location : String)
    (names : List String) :
    ∀ (cache : Cache) (e : FileEntry), e ∈ cache.file_entries →
      e ∈ ((names.foldl (addChild t location) cache).file_entries) := by
  induction names with
  | nil => intro cache e h; exact h
  | cons m ms ih =>
    intro cache e h
    rw [List.foldl_cons]
    exact ih _ e (mem_insertEntry.mpr (Or.inl h))

theorem mem_foldl_addChild_of_mem (t : FileEntryType) (location : String)
    (n : String) :
    ∀ (names : List String) (cache : Cache), n ∈ names →
      ({ file_type := t, full_path := joinPath location n,
          name := n } : FileEntry) ∈
        ((names.foldl (addChild t location) cache).file_entries) := by
  intro names
  induction names with
  | nil => intro cache hn; cases hn
  | cons m ms ih =>
    intro cache hn
    rw [List.foldl_cons]
    rcases List.mem_cons.mp hn with hm | hm
    · subst hm
      exact mem_foldl_addChild t location ms _ _
        (mem_insertEntry.mpr (Or.inr rfl))
    · exact ih _ hm

/-- Claim C8, amended: add_dir inserts every child of a readable
directory with its raw file name as display name, for every kind
including App — no hidden-entry filtering and no truncation at the first
dot take place. -/
theorem C8_raw_child_names (readDir : String → Option (List String))
    (cache : Cache) (location : String) (names : List String)
    (t : FileEntryType) (h : readDir location = some names) :
    ∀ n ∈ names,
      ({ file_type := t, full_path := joinPath location n,
          name := n } : FileEntry) ∈
        (Cache.add_dir readDir cache [location] t).file_entries := by
  intro n hn
  unfold Cache.add_dir
  rw [List.foldl_cons, List.foldl_nil]
  simp only [h]
  exact mem_foldl_addChild_of_mem t location n names _ hn

/-- Witness for C8_raw_child_names: the readable-directory hypothesis is
satisfied by the concrete listing oracle, and the hidden child is indexed
with its raw name. -/
theorem C8_raw_child_names_witness :
    (listApps "/Applications" = some [".hidden.app", "Safari.app"]) ∧
    ({ file_type := FileEntryType.App,
        full_path := joinPath "/Applications" ".hidden.app",
        name := ".hidden.app" } : FileEntry) ∈
      (Cache.add_dir listApps Cache.new ["/Applications"]
        FileEntryType.App).file_entries :=
  ⟨rfl,
    C8_raw_child_names listApps Cache.new "/Applications"
      [".hidden.app", "Safari.app"] FileEntryType.App rfl ".hidden.app"
      (by decide)⟩

/-! The meta-command branch in claim vocabulary. -/

theorem metaResults_eq (home query : String) :
    metaResults home query =
      (if (metaCmdArg (strDrop1 query)).1 = "find" then []
       else if (metaCmdArg (strDrop1 query)).1 = "config" then
         [LauncherResult.File (CONFIG_PATH home)]
       else
         [LauncherResult.Command (metaCmdArg (strDrop1 query)).1
           (metaCmdArg (strDrop1 query)).2]) := by
  unfold metaResults metaCmdArg
  cases h : splitOnceSpace (strTrim (strDrop1 query)) with
  | none => simp [h, prerun_command]
  | some p =>
    obtain ⟨cmd, param⟩ := p
    simp [h, prerun_command]

/-- Claim C4: for a non-memoized meta query, parse splits the remainder
at the first space into command and argument.  Refuted on the letter of
the splitting rule: the code trims the remainder and trims both split
parts, so for the query given below (colon, a, two spaces, b) it
memoizes the command pair (a, b), not the pair (a, space-b) the claimed
untrimmed split at the first space would produce. -/
theorem C4_counterexample :
    Query.parse o0 "/home/u" ":a  b" cfg0 Cache.new =
      some { file_entries := [],
             search_results :=
               [(":a  b", [LauncherResult.Command "a" "b"])] } ∧
    (LauncherResult.Command "a" "b") ≠ (LauncherResult.Command "a" " b") := by
  decide

/-- Claim C4, amended: for every non-memoized query whose trimmed form
starts with a colon, parse trims the colon-stripped remainder, splits it
at the first space (trimming both parts; argument empty when there is no
space), resolves the command find to no results, config to exactly the
File result for CONFIG_PATH, and any other name to the single Command
result carrying the pair; it memoizes this list under the trimmed query
and returns immediately — the result is the same for every oracle and
configuration, so fuzzy search, path checks, host lookup and the
fallback search command never run. -/
theorem C4_meta_command (o : SearchOracles) (home q : String)
    (config : Config) (cache : Cache)
    (hne : (strTrim q).isEmpty = false)
    (hmem : (cache.get_results (strTrim q)).isSome = false)
    (hcol : strStartsWith (strTrim q) ":" = true) :
    Query.parse o home q config cache =
      some (Cache.add_results Cache.new (strTrim q)
        (if (metaCmdArg (strDrop1 (strTrim q))).1 = "find" then []
         else if (metaCmdArg (strDrop1 (strTrim q))).1 = "config" then
           [LauncherResult.File (CONFIG_PATH home)]
         else
           [LauncherResult.Command (metaCmdArg (strDrop1 (strTrim q))).1
             (metaCmdArg (strDrop1 (strTrim q))).2])) := by
  have hne' : ¬((strTrim q).isEmpty = true) := by
    rw [hne]; exact Bool.false_ne_true
  have hmem' : ¬((cache.get_results (strTrim q)).isSome = true) := by
    rw [hmem]; exact Bool.false_ne_true
  unfold Query.parse
  rw [if_neg hne', if_neg hmem', if_pos hcol, metaResults_eq]

/-- Witness for C4_meta_command: the query is the config meta-command on
the empty cache; the memoized list is exactly the File result for the
configuration path. -/
theorem C4_meta_command_witness :
    ((strTrim ":config").isEmpty = false) ∧
    ((Cache.get_results Cache.new (strTrim ":config")).isSome = false) ∧
    (strStartsWith (strTrim ":config") ":" = true) ∧
    Query.parse o0 "/home/u" ":config" cfg0 Cache.new =
      some (Cache.add_results Cache.new (strTrim ":config")
        (if (metaCmdArg (strDrop1 (strTrim ":config"))).1 = "find" then []
         else if (metaCmdArg (strDrop1 (strTrim ":config"))).1 = "config" then
           [LauncherResult.File (CONFIG_PATH "/home/u")]
         else
           [LauncherResult.Command
             (metaCmdArg (strDrop1 (strTrim ":config"))).1
             (metaCmdArg (strDrop1 (strTrim ":config"))).2])) :=
  ⟨by decide, by decide, by decide,
    C4_meta_command o0 "/home/u" ":config" cfg0 Cache.new (by decide)
      (by decide) (by decide)⟩

/-- Claim C9: an unrecognized ranking-algorithm name sends the
fuzzy-search operation into its fatal panicking branch (modelled by
none), and when the configured name is one of the two recognized values
that branch is unreachable: parse succeeds for every query and cache.
Confirmed. -/
theorem C9_engine_validation (o : SearchOracles) (c : Cache)
    (query kind : String) (config : Config) (home q : String)
    (cache : Cache) :
    (kind ≠ "skim" → kind ≠ "fuse" →
      Cache.search o c query kind config = none) ∧
    ((config.fuzzy_engine = "skim" ∨ config.fuzzy_engine = "fuse") →
      (Query.parse o home q config cache).isSome = true) := by
  constructor
  · intro h1 h2
    unfold Cache.search
    rw [if_neg h1, if_neg h2]
  · intro heng
    unfold Query.parse
    by_cases h1 : (strTrim q).isEmpty = true
    · rw [if_pos h1]; rfl
    · rw [if_neg h1]
      by_cases h2 : (cache.get_results (strTrim q)).isSome = true
      · rw [if_pos h2]; rfl
      · rw [if_neg h2]
        by_cases h3 : strStartsWith (strTrim q) ":" = true
        · rw [if_pos h3]; rfl
        · rw [if_neg h3]
          by_cases h4 : byteLen (strTrim q) < 15
          · rw [if_pos h4]
            rcases hs : Cache.search o cache (strTrim q)
                config.fuzzy_engine config with _ | fuzzy
            · have hv := search_isSome_of_valid o cache (strTrim q)
                config.fuzzy_engine config heng
              rw [hs] at hv
              cases hv
            · rfl
          · rw [if_neg h4]
            rfl

/-- Witness for C9_engine_validation: a concrete unrecognized name hits
the fatal branch, and the recognized default name never does. -/
theorem C9_engine_validation_witness :
    ("bogus" ≠ "skim") ∧ ("bogus" ≠ "fuse") ∧
    Cache.search o0 Cache.new "x" "bogus" cfg0 = none ∧
    (cfg0.fuzzy_engine = "skim" ∨ cfg0.fuzzy_engine = "fuse") ∧
    (Query.parse o0 "/home/u" "hello" cfg0 Cache.new).isSome = true :=
  ⟨by decide, by decide,
    (C9_engine_validation o0 Cache.new "x" "bogus" cfg0 "/home/u" "hello"
      Cache.new).1 (by decide) (by decide),
    Or.inl rfl,
    (C9_engine_validation o0 Cache.new "x" "bogus" cfg0 "/home/u" "hello"
      Cache.new).2 (Or.inl rfl)⟩

/-- Claim C10: every delta Query::parse returns has an empty file-entry
set — a resolution pass contributes no index entries, only at most one
memoized mapping, and that mapping is keyed by the trimmed query.
Confirmed. -/
theorem C10_delta_shape (o : SearchOracles) (home q : String)
    (config : Config) (cache : Cache) (delta : Cache)
    (h : Query.parse o home q config cache = some delta) :
    delta.file_entries = [] ∧
    delta.search_results.length ≤ 1 ∧
    (∀ k rs, (k, rs) ∈ delta.search_results → k = strTrim q) := by
  unfold Query.parse at h
  by_cases h1 : (strTrim q).isEmpty = true
  · rw [if_pos h1] at h
    injection h with h
    subst h
    exact ⟨rfl, by simp [Cache.new], by intro k rs hk; simp [Cache.new] at hk⟩
  · rw [if_neg h1] at h
    by_cases h2 : (cache.get_results (strTrim q)).isSome = true
    · rw [if_pos h2] at h
      injection h with h
      subst h
      exact ⟨rfl, by simp [Cache.new], by intro k rs hk; simp [Cache.new] at hk⟩
    · rw [if_neg h2] at h
      by_cases h3 : strStartsWith (strTrim q) ":" = true
      · rw [if_pos h3] at h
        injection h with h
        subst h
        refine ⟨rfl, ?_, ?_⟩
        · simp [Cache.add_results, Cache.new, insertResults]
        · intro k rs hk
          simp [Cache.add_results, Cache.new, insertResults] at hk
          exact hk.1
      · rw [if_neg h3] at h
        rcases hs : (if byteLen (strTrim q) < 15 then
            Cache.search o cache (strTrim q) config.fuzzy_engine config
          else some []) with _ | fuzzy
        · rw [hs] at h
          cases h
        · rw [hs] at h
          injection h with h
          subst h
          refine ⟨rfl, ?_, ?_⟩
          · simp [Cache.add_results, Cache.new, insertResults]
          · intro k rs hk
            simp [Cache.add_results, Cache.new, insertResults] at hk
            exact hk.1

/-- Witness for C10_delta_shape: the delta computed for a concrete
non-meta query has no file entries and exactly the one mapping keyed by
the trimmed query. -/
theorem C10_delta_shape_witness :
    (Query.parse o0 "/home/u" "hello" cfg0 Cache.new = some deltaHello) ∧
    (deltaHello.file_entries = [] ∧
      deltaHello.search_results.length ≤ 1 ∧
      (∀ k rs, (k, rs) ∈ deltaHello.search_results → k = strTrim "hello")) :=
  ⟨by decide,
    C10_delta_shape o0 "/home/u" "hello" cfg0 Cache.new deltaHello
      (by decide)⟩

/-! The non-meta tail of parse in claim vocabulary. -/

theorem searchTail_eq (o : SearchOracles) (home query : String)
    (fuzzy : List LauncherResult) :
    searchTail o home query fuzzy =
      fuzzy ++
        (if o.pathExists query then [LauncherResult.File query] else []) ++
        (if o.pathExists (home ++ "/" ++ query) then
          [LauncherResult.File (home ++ "/" ++ query)] else []) ++
        (if o.lookupHostOk query then
          [LauncherResult.Url (fix_url query)] else []) ++
        [LauncherResult.Command "search" query] := by
  unfold searchTail
  by_cases h1 : o.pathExists query = true <;>
    by_cases h2 : o.pathExists (home ++ "/" ++ query) = true <;>
      by_cases h3 : o.lookupHostOk query = true <;>
        simp [h1, h2, h3, List.append_assoc]

/-- Claim C5: for every non-empty, non-memoized, non-meta query the
resolved result list has exactly this order: the fuzzy-ranked block
(present only when the trimmed query is shorter than the 15-byte
threshold), then a File result for the query when it is an existing
path, then a File result for home/query when that exists (both may
appear), then a Url result when the host lookup succeeded, and always
the final trailing search Command; the non-fuzzy tail is fixed-order,
never re-sorted.  Confirmed (stated for a recognized engine name, since
otherwise a short query panics). -/
theorem C5_result_order (o : SearchOracles) (home q : String)
    (config : Config) (cache : Cache)
    (hne : (strTrim q).isEmpty = false)
    (hmem : (cache.get_results (strTrim q)).isSome = false)
    (hcol : strStartsWith (strTrim q) ":" = false)
    (heng : config.fuzzy_engine = "skim" ∨ config.fuzzy_engine = "fuse") :
    ∃ fuzzy,
      Cache.search o cache (strTrim q) config.fuzzy_engine config =
        some fuzzy ∧
      Query.parse o home q config cache =
        some (Cache.add_results Cache.new (strTrim q)
          ((if byteLen (strTrim q) < 15 then fuzzy else []) ++
            (if o.pathExists (strTrim q) then
              [LauncherResult.File (strTrim q)] else []) ++
            (if o.pathExists (home ++ "/" ++ strTrim q) then
              [LauncherResult.File (home ++ "/" ++ strTrim q)] else []) ++
            (if o.lookupHostOk (strTrim q) then
              [LauncherResult.Url (fix_url (strTrim q))] else []) ++
            [LauncherResult.Command "search" (strTrim q)])) := by
  have hne' : ¬((strTrim q).isEmpty = true) := by
    rw [hne]; exact Bool.false_ne_true
  have hmem' : ¬((cache.get_results (strTrim q)).isSome = true) := by
    rw [hmem]; exact Bool.false_ne_true
  have hcol' : ¬(strStartsWith (strTrim q) ":" = true) := by
    rw [hcol]; exact Bool.false_ne_true
  obtain ⟨fuzzy, hs⟩ := Option.isSome_iff_exists.mp
    (search_isSome_of_valid o cache (strTrim q) config.fuzzy_engine config
      heng)
  refine ⟨fuzzy, hs, ?_⟩
  unfold Query.parse
  rw [if_neg hne', if_neg hmem', if_neg hcol']
  by_cases h4 : byteLen (strTrim q) < 15
  · rw [if_pos h4, hs]
    show some (Cache.add_results Cache.new (strTrim q)
      (searchTail o home (strTrim q) fuzzy)) = _
    rw [searchTail_eq, if_pos h4]
  · rw [if_neg h4]
    show some (Cache.add_results Cache.new (strTrim q)
      (searchTail o home (strTrim q) [])) = _
    rw [searchTail_eq, if_neg h4]

/-- Witness for C5_result_order: the Safari cache, the query saf with the
all-positive oracle — the memoized list is the fuzzy hit, both path hits,
the Url hit, and the trailing search command, in that order. -/
theorem C5_result_order_witness :
    ((strTrim "saf").isEmpty = false) ∧
    ((cacheSafari.get_results (strTrim "saf")).isSome = false) ∧
    (strStartsWith (strTrim "saf") ":" = false) ∧
    (cfg0.fuzzy_engine = "skim" ∨ cfg0.fuzzy_engine = "fuse") ∧
    (∃ fuzzy,
      Cache.search o1 cacheSafari (strTrim "saf") cfg0.fuzzy_engine cfg0 =
        some fuzzy ∧
      Query.parse o1 "/home/u" "saf" cfg0 cacheSafari =
        some (Cache.add_results Cache.new (strTrim "saf")
          ((if byteLen (strTrim "saf") < 15 then fuzzy else []) ++
            (if o1.pathExists (strTrim "saf") then
              [LauncherResult.File (strTrim "saf")] else []) ++
            (if o1.pathExists ("/home/u" ++ "/" ++ strTrim "saf") then
              [LauncherResult.File ("/home/u" ++ "/" ++ strTrim "saf")]
            else []) ++
            (if o1.lookupHostOk (strTrim "saf") then
              [LauncherResult.Url (fix_url (strTrim "saf"))] else []) ++
            [LauncherResult.Command "search" (strTrim "saf")]))) :=
  ⟨by decide, by decide, by decide, Or.inl rfl,
    C5_result_order o1 "/home/u" "saf" cfg0 cacheSafari (by decide)
      (by decide) (by decide) (Or.inl rfl)⟩

/-- Claim C6: the skim ranker excludes non-matching entries and orders
the rest by score descending with coverage descending as tie-break; the
fuse ranker considers only entries whose name is at least as long as the
query and orders matches by score ascending with coverage ascending as
tie-break; each ranked list is truncated to the configured result count
and mapped entrywise (App to App, Bin to Bin, File to File results)
preserving the rank order.  Confirmed, with coverage as the scaled
integer the code computes. -/
theorem C6_ranking (o : SearchOracles) (c : Cache) (q : String)
    (config : Config) :
    (∀ e : FileEntry,
      (∃ r ∈ skimRanked o.skimIndices c.file_entries q, r.entry = e) ↔
        (e ∈ c.file_entries ∧ (o.skimIndices e.name q).isSome = true)) ∧
    List.Pairwise skimRel (skimRanked o.skimIndices c.file_entries q) ∧
    Cache.search o c q "skim" config =
      some ((((skimRanked o.skimIndices c.file_entries q).take
        config.results_len).map Ranked.entry).map entryToResult) ∧
    (∀ e : FileEntry,
      (∃ r ∈ fuseRanked o.fuseSearch c.file_entries q, r.entry = e) ↔
        (e ∈ c.file_entries ∧ byteLen q ≤ byteLen e.name ∧
          (o.fuseSearch q e.name).isSome = true)) ∧
    List.Pairwise fuseRel (fuseRanked o.fuseSearch c.file_entries q) ∧
    Cache.search o c q "fuse" config =
      some ((((fuseRanked o.fuseSearch c.file_entries q).take
        config.results_len).map Ranked.entry).map entryToResult) := by
  refine ⟨?_, ?_, search_skim_eq o c q config, ?_, ?_,
    search_fuse_eq o c q config⟩
  · intro e
    constructor
    · rintro ⟨r, hr, hre⟩
      rw [skimRanked, List.mem_insertionSort] at hr
      rw [skimScored, List.mem_filterMap] at hr
      obtain ⟨a, ha, hfa⟩ := hr
      have hae : a = e := by rw [← hre, skimScore1_entry hfa]
      subst hae
      refine ⟨ha, ?_⟩
      have hiso := @skimScore1_isSome o.skimIndices q a
      rw [hfa] at hiso
      exact hiso.symm.trans rfl
    · rintro ⟨ha, hsome⟩
      rcases hr : skimScore1 o.skimIndices q e with _ | r
      · have hiso := @skimScore1_isSome o.skimIndices q e
        rw [hr, hsome] at hiso
        cases hiso
      · refine ⟨r, ?_, skimScore1_entry hr⟩
        rw [skimRanked, List.mem_insertionSort, skimScored,
          List.mem_filterMap]
        exact ⟨e, ha, hr⟩
  · unfold skimRanked
    exact List.sorted_insertionSort skimRel _
  · intro e
    constructor
    · rintro ⟨r, hr, hre⟩
      rw [fuseRanked, List.mem_insertionSort] at hr
      rw [fuseScored, List.mem_filterMap] at hr
      obtain ⟨a, ha, hfa⟩ := hr
      have hae : a = e := by rw [← hre, fuseScore1_entry hfa]
      subst hae
      have hiso := @fuseScore1_isSome o.fuseSearch q a
      rw [hfa] at hiso
      have hx := (Bool.and_eq_true _ _).mp (hiso.symm.trans rfl)
      exact ⟨ha, of_decide_eq_true hx.1, hx.2⟩
    · rintro ⟨ha, hlen, hsome⟩
      rcases hr : fuseScore1 o.fuseSearch q e with _ | r
      · have hiso := @fuseScore1_isSome o.fuseSearch q e
        rw [hr] at hiso
        have hx : (decide (byteLen q ≤ byteLen e.name) &&
            (o.fuseSearch q e.name).isSome) = true := by
          rw [decide_eq_true hlen, hsome]
          rfl
        have hbad := hiso.trans hx
        simp at hbad
      · refine ⟨r, ?_, fuseScore1_entry hr⟩
        rw [fuseRanked, List.mem_insertionSort, fuseScored,
          List.mem_filterMap]
        exact ⟨e, ha, hr⟩
  · unfold fuseRanked
    exact List.sorted_insertionSort fuseRel _

end Launcher
